import Mathlib

/-
  Verification of qtrlb: a shallow embedding of
  - the per-channel sequence compiler of qtrlb/calibration/calibration.py
    (class Scan: make_sequence, set_waveforms_acquisitions, add_heralding,
    add_readout, add_wait, ...),
  - the acquisition loop of qtrlb/config/DAC_manager.py
    (DACManager.start_sequencer),
  - the processing pipeline of qtrlb/processing/processing.py
    (rotate_IQ, normalize_population, correct_population,
    find_most_distant_points, get_readout_fidelity),
  together with theorems settling the stated properties of these functions.

  Machine integers of the Python source are modelled as Int/Nat, float
  durations are modelled at the level of time_ns = round(t * 1e9) : Int,
  and real-valued data is modelled over the rationals (exact arithmetic)
  except for the trigonometric rotation, which is modelled over the reals.
-/

namespace Qtrlb

/-! ## Python bitwise AND against the literal 65535

The source line (calibration.py, Scan.add_wait)

    assert time_ns < 65535 & time_ns >= 4, ...

parses in Python as the chained comparison

    (time_ns < (65535 & time_ns)) and ((65535 & time_ns) >= 4)

because the bitwise AND binds tighter than comparisons and comparisons
chain.  Python ints are infinite twos-complement, so for m >= 0 the value
65535 & m is the low 16 bits of m, and for a negative int, written as
.negSucc n = -(n+1), its bit pattern is the complement of the bits of n,
hence 65535 & -(n+1) = 65535 - (n &&& 65535).  The definition below encodes
exactly this, and the lemma after it certifies that it agrees with the
twos-complement bitwise AND of Lean (Int.land) on every input. -/

/-- Python expression 65535 & x on an arbitrary int x. -/
def pyLand65535 : Int → Int
  | .ofNat m => .ofNat (m &&& 65535)
  | .negSucc n => .ofNat (65535 - (n &&& 65535))

/-- Sanity check: pyLand65535 agrees with the twos-complement bitwise AND
of the Lean standard library on all of Int. -/
theorem pyLand65535_eq_land (x : Int) : pyLand65535 x = Int.land 65535 x := by
  cases x with
  | ofNat m => simp [pyLand65535, Int.land, Nat.and_comm]
  | negSucc n =>
    show (Int.ofNat (65535 - (n &&& 65535))) = Int.ofNat (Nat.ldiff 65535 n)
    congr 1
    apply Nat.eq_of_testBit_eq
    intro k
    rw [Nat.testBit_ldiff]
    have h1 : n &&& 65535 = n % 65536 := by
      have := Nat.and_pow_two_sub_one_eq_mod n 16
      norm_num at this
      exact this
    have h2 : n % 65536 < 65536 := Nat.mod_lt _ (by norm_num)
    have h3 : (65535 - (n &&& 65535)) = 2 ^ 16 - (n % 65536 + 1) := by
      rw [h1]; omega
    rw [h3, Nat.testBit_two_pow_sub_succ h2]
    have h4 : Nat.testBit 65535 k = decide (k < 16) := by
      have h65 : (65535 : Nat) = 2 ^ 16 - 1 := by norm_num
      rw [h65, Nat.testBit_two_pow_sub_one]
    have h5 : (n % 65536).testBit k = (decide (k < 16) && n.testBit k) := by
      have := Nat.testBit_mod_two_pow n 16 k
      norm_num at this
      exact this
    rw [h4, h5]
    cases Nat.decLt k 16 with
    | isTrue h => simp [h]
    | isFalse h => simp [h]

/-! ## Program fragments of the sequence compiler

Scan.make_sequence assembles, for every qudit (drive qubit or readout
resonator), a program by string concatenation of named fragments in a fixed
order.  We model a program as the list of appended fragments; the textual
content of a fragment (Q1ASM instructions produced by pulse_interpreter) is
irrelevant to the claims and is abstracted to the fragment tag, keeping
the acquisition index of readout fragments and the duration of wait
fragments, which the claims are about. -/

inductive Frag where
  /-- fragment emitted by Scan.init_program: wait_sync plus register moves -/
  | init : Frag
  /-- fragment emitted by Scan.add_mainloop: the main_loop label block -/
  | mainloop : Frag
  /-- fragment emitted by Scan.add_relaxation: the relx_loop block -/
  | relaxation : Frag
  /-- one fragment per column of readout_df emitted by Scan.add_readout,
  carrying the acquisition bin index passed to pulse_interpreter -/
  | readout (acqIndex : Nat) : Frag
  /-- fragment emitted by Scan.add_wait, carrying the wait time in ns -/
  | wait (time_ns : Int) : Frag
  /-- one fragment per column of full_prepulse_df emitted by Scan.add_prepulse -/
  | prepulse : Frag
  /-- one fragment per column of postpulse_df emitted by Scan.add_postpulse -/
  | postpulse : Frag
  /-- fragment emitted by Scan.add_stop: counter increment, conditional jump, stop -/
  | stop : Frag
deriving DecidableEq

/-- Condition of the assert statement in Scan.add_wait, exactly as the
Python expression time_ns < 65535 & time_ns >= 4 evaluates (a chained
comparison around the bitwise AND). -/
def addWaitAssertCond (time_ns : Int) : Bool :=
  decide (time_ns < pyLand65535 time_ns) && decide (pyLand65535 time_ns ≥ 4)

/-- Error message of the assert in Scan.add_wait. -/
def waitAssertMsg : String := "The wait time can only be in [4,65535)."

/-- Scan.add_wait at the level of time_ns = round(time * 1e9): if the
assert condition holds, append one wait fragment to the program of every
channel, otherwise raise AssertionError. -/
def add_wait (time_ns : Int) (progs : List (List Frag)) :
    Except String (List (List Frag)) :=
  if addWaitAssertCond time_ns then
    .ok (progs.map (fun p => p ++ [.wait time_ns]))
  else
    .error waitAssertMsg

/-- Contract of add_wait as the spec states it: the duration in ns lies in
the half-open interval from 4 to 65535.  (Modelled from the spec wording;
kept separate from the source condition above so the two can be compared.) -/
def intendedWaitCond (time_ns : Int) : Bool :=
  decide (4 ≤ time_ns) && decide (time_ns < 65535)

/-- C1: the assert condition of Scan.add_wait is false for every
non-negative time_ns, so add_wait raises AssertionError on every
non-negative duration, in particular on the whole intended range
4 <= time_ns < 65535; no wait instruction is ever appended there. -/
theorem add_wait_always_fails_on_nonneg (time_ns : Int) (progs : List (List Frag))
    (h : 0 ≤ time_ns) :
    add_wait time_ns progs = .error waitAssertMsg := by
  obtain ⟨m, rfl⟩ := Int.eq_ofNat_of_zero_le h
  have hland : pyLand65535 (m : Int) = ((m &&& 65535 : Nat) : Int) := rfl
  have hle : (m &&& 65535) ≤ m := Nat.and_le_left
  have hnotlt : ¬ ((m : Int) < pyLand65535 (m : Int)) := by
    rw [hland]
    exact not_lt.mpr (by exact_mod_cast hle)
  have hcond : addWaitAssertCond (m : Int) = false := by
    unfold addWaitAssertCond
    rw [decide_eq_false hnotlt]
    simp
  unfold add_wait
  rw [hcond]
  simp

/-- Witness for C1: at time_ns = 100 (i.e. a 100 ns wait, squarely inside
the documented legal range) the source raises AssertionError, while the
intended contract accepts it. -/
theorem add_wait_always_fails_on_nonneg_witness :
    (0 : Int) ≤ 100 ∧
      add_wait 100 [[]] = .error waitAssertMsg ∧
      intendedWaitCond 100 = true :=
  ⟨by decide, add_wait_always_fails_on_nonneg 100 [[]] (by decide), by decide⟩

/-! ## Scan.make_sequence (calibration.py)

The per-channel sequence dictionary holds waveforms, weights, acquisitions
and the program.  The claims concern the acquisitions table and the order
of program fragments, so we embed exactly those two.  Every qudit receives
the same acquisitions table and, at the fragment level, the same program
(the source appends the same fragment kinds to every entry of
self.sequences inside each add_* method), so a Scan compiles to one
(acquisitions, program) pair replicated over the qudit list. -/

/-- Entry of the acquisitions table of one channel: num_bins and index, as
in set_waveforms_acquisitions. -/
structure AcqEntry where
  numBins : Nat
  index : Nat
deriving DecidableEq

/-- Acquisitions table of one channel, with the two named bins readout and
heralding that set_waveforms_acquisitions creates. -/
structure Acquisitions where
  readout : AcqEntry
  heralding : AcqEntry
deriving DecidableEq

/-- Configuration data of a Scan that the compiled fragment structure
depends on.  Durations are at the time_ns level. -/
structure ScanConfig where
  /-- value of cfg.variables[common/heralding] -/
  heraldingEnable : Bool
  /-- round(cfg.variables[common/heralding_delay] * 1e9) -/
  heraldingDelay_ns : Int
  /-- number of points of the sweep (self.x_points) -/
  xPoints : Nat
  /-- number of columns of full_prepulse_df (subspace columns plus prepulse columns) -/
  nPrepulseCols : Nat
  /-- number of columns of postpulse_df -/
  nPostpulseCols : Nat
  /-- number of qudits (drive_qubits plus readout_resonators) -/
  nQudits : Nat

/-- Scan.set_waveforms_acquisitions: for every qudit, bin readout gets
num_bins = x_points and index 0, bin heralding gets num_bins = x_points
and index 1. -/
def set_waveforms_acquisitions (cfg : ScanConfig) : Acquisitions :=
  { readout := { numBins := cfg.xPoints, index := 0 }
    heralding := { numBins := cfg.xPoints, index := 1 } }

/-- Scan.init_program: the initial program text. -/
def init_program : List Frag := [.init]

/-- Scan.add_mainloop appends the main_loop block. -/
def add_mainloop (p : List Frag) : List Frag := p ++ [.mainloop]

/-- Scan.add_relaxation appends the relaxation block. -/
def add_relaxation (p : List Frag) : List Frag := p ++ [.relaxation]

/-- Scan.add_readout appends one readout fragment per column of readout_df
(readout_df has exactly one column, readout_0), tagged with the acquisition
index argument (default 0 at the call site in make_sequence). -/
def add_readout (acqIndex : Nat) (p : List Frag) : List Frag :=
  p ++ [.readout acqIndex]

/-- Scan.add_heralding: add_readout with acq_index = 1, then add_wait with
the heralding delay.  Runs add_wait on the single modelled program. -/
def add_heralding (cfg : ScanConfig) (p : List Frag) : Except String (List Frag) :=
  match add_wait cfg.heraldingDelay_ns [add_readout 1 p] with
  | .ok ps => .ok (ps.headD [])
  | .error e => .error e

/-- Scan.add_prepulse appends one fragment per column of full_prepulse_df. -/
def add_prepulse (cfg : ScanConfig) (p : List Frag) : List Frag :=
  p ++ List.replicate cfg.nPrepulseCols .prepulse

/-- Scan.add_postpulse appends one fragment per column of postpulse_df. -/
def add_postpulse (cfg : ScanConfig) (p : List Frag) : List Frag :=
  p ++ List.replicate cfg.nPostpulseCols .postpulse

/-- Scan.add_stop appends the loop-control and stop block. -/
def add_stop (p : List Frag) : List Frag := p ++ [.stop]

/-- Scan.make_sequence: set_waveforms_acquisitions, then init_program,
add_initparameter (adds nothing in the base class), add_mainloop,
add_relaxation, add_heralding when heralding is enabled, add_prepulse,
add_mainpulse (adds nothing in the base class), add_postpulse, add_readout
with the default index 0, add_stop.  AssertionError from add_wait inside
add_heralding aborts the whole compilation. -/
def make_sequence (cfg : ScanConfig) : Except String (Acquisitions × List Frag) :=
  let acq := set_waveforms_acquisitions cfg
  let p0 := add_relaxation (add_mainloop init_program)
  match (if cfg.heraldingEnable then add_heralding cfg p0 else .ok p0) with
  | .error e => .error e
  | .ok p1 =>
      .ok (acq, add_stop (add_readout 0 (add_postpulse cfg (add_prepulse cfg p1))))

/-- Sequences of a whole Scan: one (acquisitions, program) pair per qudit. -/
def scan_sequences (cfg : ScanConfig) :
    Except String (List (Acquisitions × List Frag)) :=
  (make_sequence cfg).map (List.replicate cfg.nQudits)

/-- C3: whenever a Scan with heralding enabled compiles, every channel gets
acquisition bin index 0 for the final readout and index 1 for heralding,
the heralding readout fragment sits at program position 3 followed by its
wait at position 4, and every prepulse fragment comes strictly later. -/
theorem heralding_bins_and_order (cfg : ScanConfig)
    (seqs : List (Acquisitions × List Frag))
    (hh : cfg.heraldingEnable = true)
    (hok : scan_sequences cfg = .ok seqs) :
    ∀ s ∈ seqs,
      s.1.readout.index = 0 ∧ s.1.heralding.index = 1 ∧
      s.2.get? 3 = some (.readout 1) ∧
      s.2.get? 4 = some (.wait cfg.heraldingDelay_ns) ∧
      ∀ i, s.2.get? i = some .prepulse → 4 < i := by
  cases hw : addWaitAssertCond cfg.heraldingDelay_ns with
  | false =>
      exfalso
      unfold scan_sequences make_sequence add_heralding add_wait at hok
      rw [hh, hw] at hok
      simp [Except.map] at hok
  | true =>
      unfold scan_sequences make_sequence add_heralding add_wait at hok
      rw [hh, hw] at hok
      simp only [if_true] at hok
      simp only [Except.map] at hok
      intro s hs
      have hsval :
          s = (set_waveforms_acquisitions cfg,
            add_stop (add_readout 0 (add_postpulse cfg (add_prepulse cfg
              (add_readout 1 (add_relaxation (add_mainloop init_program)) ++
                [.wait cfg.heraldingDelay_ns]))))) := by
        simp at hok
        rw [← hok] at hs
        exact List.eq_of_mem_replicate hs
      subst hsval
      refine ⟨rfl, rfl, ?_, ?_, ?_⟩
      · rfl
      · rfl
      · intro i hi
        unfold add_stop add_readout add_postpulse add_prepulse add_relaxation
          add_mainloop init_program at hi
        match i with
        | 0 => simp at hi
        | 1 => simp at hi
        | 2 => simp at hi
        | 3 => simp at hi
        | 4 => simp at hi
        | (n + 5) => omega

/-- Witness for C3: a concrete 2-point heralded Scan (two prepulse columns,
one postpulse column, four qudits).  The heralding delay must be taken
negative, since by C1 the add_wait assert rejects every non-negative delay;
at time_ns = -1 the buggy condition happens to pass, so compilation
succeeds and the claim can be exercised. -/
theorem heralding_bins_and_order_witness :
    (⟨true, -1, 2, 2, 1, 4⟩ : ScanConfig).heraldingEnable = true ∧
      scan_sequences ⟨true, -1, 2, 2, 1, 4⟩ =
        .ok (List.replicate 4
          (⟨⟨2, 0⟩, ⟨2, 1⟩⟩,
            [.init, .mainloop, .relaxation, .readout 1, .wait (-1),
             .prepulse, .prepulse, .postpulse, .readout 0, .stop])) ∧
      ∀ s ∈ (List.replicate 4
          ((⟨⟨2, 0⟩, ⟨2, 1⟩⟩ : Acquisitions),
            ([.init, .mainloop, .relaxation, .readout 1, .wait (-1),
              .prepulse, .prepulse, .postpulse, .readout 0, .stop] : List Frag))),
        s.1.readout.index = 0 ∧ s.1.heralding.index = 1 ∧
        s.2.get? 3 = some (.readout 1) ∧
        s.2.get? 4 = some (.wait (⟨true, -1, 2, 2, 1, 4⟩ : ScanConfig).heraldingDelay_ns) ∧
        ∀ i, s.2.get? i = some .prepulse → 4 < i :=
  ⟨rfl, rfl,
    heralding_bins_and_order ⟨true, -1, 2, 2, 1, 4⟩ _ rfl rfl⟩

/-! ## DACManager.start_sequencer (DAC_manager.py)

One repetition of the acquisition loop, for one readout resonator.  The
instrument-side state we track is the content of the two named acquisition
bins (modelled as the number of sequencer runs whose integrated results
have accumulated in the bin since the last delete_acquisition_data), plus
the number of entries appended to the measurement dictionary of the host.
Bins accumulate and auto-average across runs unless deleted, which is
exactly why the source deletes them after each read.

Two instrument calls of the body can raise: get_acquisition_state (timeout
while waiting for the acquisition to finish) and get_acquisitions (a
communication failure while fetching).  Whether they succeed in a given
repetition is a fact about the hardware, passed in as two Bool flags; the
embedding mirrors the straight-line source, which has no try/finally. -/

/-- Instrument plus host state relevant to one readout resonator. -/
structure AcqState where
  /-- sequencer runs accumulated in bin readout since the last delete -/
  readoutBinRuns : Nat
  /-- sequencer runs accumulated in bin heralding since the last delete -/
  heraldingBinRuns : Nat
  /-- entries appended so far to measurement[r][Heterodyned_readout] -/
  measEntries : Nat
deriving DecidableEq

/-- Errors the body of start_sequencer can raise. -/
inductive AcqError where
  /-- get_acquisition_state did not report completion within the timeout -/
  | acquisitionTimeout : AcqError
  /-- get_acquisitions failed while fetching the binned data -/
  | commError : AcqError
deriving DecidableEq

/-- Arm plus qblox.start_sequencer: the sequencer runs once, adding one
run of integrated results into each acquisition bin. -/
def run_sequencers (s : AcqState) : AcqState :=
  { s with readoutBinRuns := s.readoutBinRuns + 1,
           heraldingBinRuns := s.heraldingBinRuns + 1 }

/-- DACManager side of module.get_acquisition_state: waits, raising on
timeout; no state change either way. -/
def get_acquisition_state (ok : Bool) (s : AcqState) : Except AcqError AcqState :=
  if ok then .ok s else .error .acquisitionTimeout

/-- DACManager side of module.get_acquisitions: fetches the binned data of
both bins back to the host; no state change either way. -/
def get_acquisitions (ok : Bool) (s : AcqState) :
    Except AcqError (AcqState × Nat × Nat) :=
  if ok then .ok (s, s.readoutBinRuns, s.heraldingBinRuns) else .error .commError

/-- Named acquisition bins of the sequence. -/
inductive BinName where
  | readout : BinName
  | heralding : BinName
deriving DecidableEq

/-- DACManager side of module.delete_acquisition_data on one named bin:
clears that bin on the instrument. -/
def delete_acquisition_data (b : BinName) (s : AcqState) : AcqState :=
  match b with
  | .readout => { s with readoutBinRuns := 0 }
  | .heralding => { s with heraldingBinRuns := 0 }

/-- Host side: the four measurement[r][...].append(...) lines. -/
def append_measurement (s : AcqState) : AcqState :=
  { s with measEntries := s.measEntries + 1 }

/-- One repetition of DACManager.start_sequencer for one resonator, in
source order: arm and start the sequencer, get_acquisition_state (may
raise), get_acquisitions (may raise), delete_acquisition_data on readout
then on heralding, append to the measurement dictionary.  The second
component records the error the repetition raised, if any. -/
def start_sequencer_rep (stateOk readOk : Bool) (s0 : AcqState) :
    AcqState × Option AcqError :=
  let s := run_sequencers s0
  match get_acquisition_state stateOk s with
  | .error e => (s, some e)
  | .ok s =>
    match get_acquisitions readOk s with
    | .error e => (s, some e)
    | .ok (s, _data) =>
      let s := delete_acquisition_data .readout s
      let s := delete_acquisition_data .heralding s
      (append_measurement s, none)

/-- Counterexample to C2: in a repetition where get_acquisition_state times
out (stateOk = false), the function returns with the error while the run
just executed is still sitting in both instrument bins: nothing cleared
them, contradicting clear-on-exit along error paths. -/
theorem start_sequencer_no_clear_on_error :
    (start_sequencer_rep false true ⟨0, 0, 0⟩).2 = some .acquisitionTimeout ∧
      (start_sequencer_rep false true ⟨0, 0, 0⟩).1.readoutBinRuns = 1 ∧
      (start_sequencer_rep false true ⟨0, 0, 0⟩).1.heraldingBinRuns = 1 := by
  refine ⟨rfl, rfl, rfl⟩

/-- C2 as amended: the bins are cleared exactly on the success path.  When
both instrument calls succeed the repetition returns with both bins empty
(cleared after the read, before the measurement append and the return);
when either call raises, the error propagates and both bins still hold the
run that was just acquired. -/
theorem start_sequencer_clear_iff_success (stateOk readOk : Bool) (s : AcqState) :
    ((start_sequencer_rep stateOk readOk s).2 = none →
      (start_sequencer_rep stateOk readOk s).1.readoutBinRuns = 0 ∧
      (start_sequencer_rep stateOk readOk s).1.heraldingBinRuns = 0) ∧
    ((start_sequencer_rep stateOk readOk s).2 ≠ none →
      (start_sequencer_rep stateOk readOk s).1.readoutBinRuns = s.readoutBinRuns + 1 ∧
      (start_sequencer_rep stateOk readOk s).1.heraldingBinRuns = s.heraldingBinRuns + 1) := by
  cases stateOk <;> cases readOk <;>
    simp [start_sequencer_rep, run_sequencers, get_acquisition_state,
      get_acquisitions, delete_acquisition_data, append_measurement]

/-- Witness for the amended C2: a fully successful repetition from empty
state ends with both bins cleared, and a timed-out repetition reports its
error. -/
theorem start_sequencer_clear_iff_success_witness :
    ((start_sequencer_rep true true ⟨0, 0, 0⟩).1.readoutBinRuns = 0 ∧
      (start_sequencer_rep true true ⟨0, 0, 0⟩).1.heraldingBinRuns = 0) ∧
    ((start_sequencer_rep false false ⟨0, 0, 0⟩).1.readoutBinRuns = 0 + 1 ∧
      (start_sequencer_rep false false ⟨0, 0, 0⟩).1.heraldingBinRuns = 0 + 1) :=
  ⟨(start_sequencer_clear_iff_success true true ⟨0, 0, 0⟩).1 rfl,
    (start_sequencer_clear_iff_success false false ⟨0, 0, 0⟩).2 (by decide)⟩

/-! ## normalize_population (processing.py)

The input is an integer label array of shape (n_reps, x_points), modelled
as a list of rows.  With mask = None and axis = 0 the source computes, for
each level in range(n_levels), np.mean(input_data == level, axis = 0): the
fraction of repetitions classified at that level, per sweep point.  Means
are taken over the rationals (exact arithmetic in place of float64). -/

/-- Number of sweep points of the data, i.e. the length of its rows. -/
def xPointsOf (data : List (List Int)) : Nat := (data.headD []).length

/-- Entry (level, p) of np.mean(masked_data == level, axis=0): the fraction
of rows whose entry at column p equals level. -/
def levelMean (data : List (List Int)) (level : Int) (p : Nat) : ℚ :=
  ((data.map (fun row => if row.get? p = some level then (1 : ℚ) else 0)).sum) /
    (data.length : ℚ)

/-- Source function normalize_population with mask = None and axis = 0:
the list [np.mean(masked_data == level, axis=0) for level in
range(n_levels)], turned into an array of shape (n_levels, x_points). -/
def normalize_population (data : List (List Int)) (n_levels : Nat) :
    List (List ℚ) :=
  (List.range n_levels).map (fun (level : ℕ) =>
    (List.range (xPointsOf data)).map (fun p => levelMean data (level : Int) p))

theorem list_range_map_sum (f : Nat → ℚ) (n : Nat) :
    ((List.range n).map f).sum = ∑ i ∈ Finset.range n, f i := by
  induction n with
  | zero => simp
  | succ k ih => rw [List.range_succ, Finset.sum_range_succ]; simp [ih]

theorem sum_map_one (l : List (List Int)) :
    (l.map (fun _ => (1 : ℚ))).sum = (l.length : ℚ) := by
  induction l with
  | nil => simp
  | cons a t ih => simp [ih]; ring

theorem sum_over_rows_swap (n : Nat) (data : List (List Int)) (f : Nat → List Int → ℚ) :
    (∑ l ∈ Finset.range n, (data.map (f l)).sum) =
      (data.map (fun row => ∑ l ∈ Finset.range n, f l row)).sum := by
  induction data with
  | nil => simp
  | cons row rest ih => simp [Finset.sum_add_distrib, ih]

/-- C4: with mask = None, for every rectangular integer label array whose
entries all lie in {0, ..., n_levels - 1} and which has at least one
repetition, the output of normalize_population sums to exactly 1 over the
level dimension at every sweep point. -/
theorem normalize_population_sums_to_one (data : List (List Int)) (n_levels : Nat)
    (p : Nat)
    (hne : data ≠ [])
    (hrect : ∀ row ∈ data, row.length = xPointsOf data)
    (hrange : ∀ row ∈ data, ∀ v ∈ row, 0 ≤ v ∧ v < (n_levels : Int))
    (hp : p < xPointsOf data) :
    ((normalize_population data n_levels).map (fun lvlRow => lvlRow.getD p 0)).sum
      = 1 := by
  have hgetD : ∀ level : Nat,
      ((List.range (xPointsOf data)).map (fun q => levelMean data (level : Int) q)).getD p 0
        = levelMean data (level : Int) p := by
    intro level
    rw [List.getD_eq_getElem?_getD, List.getElem?_map]
    simp [List.getElem?_range hp]
  have hmapmap :
      ((normalize_population data n_levels).map (fun lvlRow => lvlRow.getD p 0))
        = (List.range n_levels).map (fun level : ℕ => levelMean data (level : Int) p) := by
    unfold normalize_population
    rw [List.map_map]
    exact List.map_congr_left (fun level _ => hgetD level)
  rw [hmapmap, list_range_map_sum]
  unfold levelMean
  rw [← Finset.sum_div, sum_over_rows_swap]
  have hrow : ∀ row ∈ data,
      (∑ l ∈ Finset.range n_levels,
        (if row.get? p = some (l : Int) then (1 : ℚ) else 0)) = 1 := by
    intro row hrow_mem
    have hlen : p < row.length := by rw [hrect row hrow_mem]; exact hp
    obtain ⟨v, hv⟩ : ∃ v, row.get? p = some v := by
      rw [List.get?_eq_getElem?]
      exact ⟨row[p], List.getElem?_eq_getElem hlen⟩
    have hvrange : 0 ≤ v ∧ v < (n_levels : Int) := by
      refine hrange row hrow_mem v ?_
      exact List.get?_mem hv
    have hvtoNat : v = ((v.toNat : Nat) : Int) := (Int.toNat_of_nonneg hvrange.1).symm
    have hvlt : v.toNat < n_levels := by
      have := hvrange.2
      omega
    rw [Finset.sum_eq_single v.toNat]
    · rw [hv, ← hvtoNat]
      simp
    · intro l _ hne_l
      rw [hv]
      have : v ≠ (l : Int) := by omega
      simp [this]
    · intro habs
      exact absurd (Finset.mem_range.mpr hvlt) habs
  rw [List.map_congr_left hrow, sum_map_one]
  have hlen0 : (data.length : ℚ) ≠ 0 := by
    have : data.length ≠ 0 := by
      intro h0
      exact hne (List.length_eq_zero.mp h0)
    exact_mod_cast this
  exact div_self hlen0

/-- Witness for C4: the scenario of the source docstring, 4 repetitions by
3 points, two levels, no mask, checked at sweep point p = 1. -/
theorem normalize_population_sums_to_one_witness :
    ([[0, 1, 0], [0, 0, 0], [0, 1, 0], [0, 1, 0]] : List (List Int)) ≠ [] ∧
      (∀ row ∈ ([[0, 1, 0], [0, 0, 0], [0, 1, 0], [0, 1, 0]] : List (List Int)),
        row.length = xPointsOf [[0, 1, 0], [0, 0, 0], [0, 1, 0], [0, 1, 0]]) ∧
      (∀ row ∈ ([[0, 1, 0], [0, 0, 0], [0, 1, 0], [0, 1, 0]] : List (List Int)),
        ∀ v ∈ row, 0 ≤ v ∧ v < (2 : Int)) ∧
      1 < xPointsOf [[0, 1, 0], [0, 0, 0], [0, 1, 0], [0, 1, 0]] ∧
      ((normalize_population [[0, 1, 0], [0, 0, 0], [0, 1, 0], [0, 1, 0]] 2).map
        (fun lvlRow => lvlRow.getD 1 0)).sum = 1 :=
  ⟨by decide, by decide, by decide, by decide,
    normalize_population_sums_to_one [[0, 1, 0], [0, 0, 0], [0, 1, 0], [0, 1, 0]]
      2 1 (by decide) (by decide) (by decide) (by decide)⟩

/-! ## get_readout_fidelity (processing.py)

Fidelity from a confusion matrix (column-stochastic convention), using the
entry [0, 0] and the sum over the rest of row 0, exactly the expression
(1 + confusion_matrix[0, 0] - np.sum(confusion_matrix[0, 1:])) / 2. -/

/-- Source function get_readout_fidelity on a matrix given as a list of
rows (float arithmetic taken over the rationals). -/
def get_readout_fidelity (confusion_matrix : List (List ℚ)) : ℚ :=
  (1 + (confusion_matrix.headD []).headD 0 -
    ((confusion_matrix.headD []).drop 1).sum) / 2

/-- C7: for every confusion matrix with at least two rows and two columns,
get_readout_fidelity returns (1 + M[0,0] - sum of M[0,1:]) / 2, and on the
matrix [[0.95, 0.05], [0.05, 0.95]] it returns 0.95. -/
theorem get_readout_fidelity_formula (confusion_matrix : List (List ℚ))
    (hrows : 2 ≤ confusion_matrix.length)
    (hcols : 2 ≤ (confusion_matrix.headD []).length) :
    get_readout_fidelity confusion_matrix =
      (1 + (confusion_matrix.headD []).headD 0 -
        ((confusion_matrix.headD []).drop 1).sum) / 2 ∧
    get_readout_fidelity [[19/20, 1/20], [1/20, 19/20]] = 19/20 :=
  ⟨rfl, by norm_num [get_readout_fidelity]⟩

/-- Witness for C7: the 0.95 confusion matrix itself satisfies the size
hypotheses and evaluates to fidelity 0.95. -/
theorem get_readout_fidelity_formula_witness :
    2 ≤ ([[19/20, 1/20], [1/20, 19/20]] : List (List ℚ)).length ∧
      2 ≤ (([[19/20, 1/20], [1/20, 19/20]] : List (List ℚ)).headD []).length ∧
      get_readout_fidelity [[19/20, 1/20], [1/20, 19/20]] = 19/20 :=
  ⟨by decide, by decide,
    (get_readout_fidelity_formula [[19/20, 1/20], [1/20, 19/20]]
      (by decide) (by decide)).2⟩

/-! ## correct_population (processing.py)

The source flattens all trailing dimensions of the data into columns,
calls np.linalg.solve(corr_matrix, flat_data) and reshapes back; we model
the data directly as a matrix with k columns.  np.linalg.solve (LAPACK
gesv) raises LinAlgError("Singular matrix") exactly when elimination hits
a zero pivot, i.e. when the matrix is singular, and otherwise returns the
solution of the linear system; over exact rational arithmetic that
solution is adjugate-over-determinant (Cramer), and singular means
determinant zero. -/

/-- Model of np.linalg.solve over the rationals: error on a singular
matrix, otherwise the unique solution X of a * X = b. -/
def np_linalg_solve {n k : Nat} (a : Matrix (Fin n) (Fin n) ℚ)
    (b : Matrix (Fin n) (Fin k) ℚ) : Except String (Matrix (Fin n) (Fin k) ℚ) :=
  if a.det = 0 then .error "Singular matrix"
  else .ok (a.det⁻¹ • (a.adjugate * b))

/-- Source function correct_population: solve corr_matrix * actual =
input_data for actual (argument order as in the source: data first). -/
def correct_population {n k : Nat} (input_data : Matrix (Fin n) (Fin k) ℚ)
    (corr_matrix : Matrix (Fin n) (Fin n) ℚ) :
    Except String (Matrix (Fin n) (Fin k) ℚ) :=
  np_linalg_solve corr_matrix input_data

/-- C5: for every nonsingular correction matrix M and every population
vector p summing to 1, correct_population applied to the forward-model
data M * p recovers exactly p: correction is a left-inverse of the
forward confusion model. -/
theorem correct_population_left_inverse {n : Nat} (M : Matrix (Fin n) (Fin n) ℚ)
    (p : Matrix (Fin n) (Fin 1) ℚ) (hdet : M.det ≠ 0)
    (hsum : (∑ i, p i 0) = 1) :
    correct_population (M * p) M = .ok p := by
  unfold correct_population np_linalg_solve
  rw [if_neg hdet]
  congr 1
  rw [← Matrix.mul_assoc, Matrix.adjugate_mul, Matrix.smul_mul, Matrix.one_mul,
    smul_smul, inv_mul_cancel₀ hdet, one_smul]

/-- Witness for C5: a concrete nonsingular 2 by 2 matrix and the uniform
population vector. -/
theorem correct_population_left_inverse_witness :
    (!![1, 1; 0, 1] : Matrix (Fin 2) (Fin 2) ℚ).det ≠ 0 ∧
      (∑ i, (!![1/2; 1/2] : Matrix (Fin 2) (Fin 1) ℚ) i 0) = 1 ∧
      correct_population
          ((!![1, 1; 0, 1] : Matrix (Fin 2) (Fin 2) ℚ) *
            (!![1/2; 1/2] : Matrix (Fin 2) (Fin 1) ℚ))
          !![1, 1; 0, 1] = .ok !![1/2; 1/2] :=
  ⟨by simp [Matrix.det_fin_two_of],
    by simp [Fin.sum_univ_two],
    correct_population_left_inverse (!![1, 1; 0, 1] : Matrix (Fin 2) (Fin 2) ℚ)
      (!![1/2; 1/2] : Matrix (Fin 2) (Fin 1) ℚ)
      (by simp [Matrix.det_fin_two_of])
      (by simp [Fin.sum_univ_two])⟩

/-- C6: correct_population raises LinAlgError at correction time whenever
the correction matrix is singular (the exact-arithmetic content of
ill-conditioned), instead of returning a result.  The input data is passed
by value into the error-free part only, so the raw measurement data is
untouched by the failure (see also the allocation model below: the solve
never writes to an existing array). -/
theorem correct_population_singular_error {n k : Nat}
    (input_data : Matrix (Fin n) (Fin k) ℚ)
    (corr_matrix : Matrix (Fin n) (Fin n) ℚ)
    (h : corr_matrix.det = 0) :
    correct_population input_data corr_matrix = .error "Singular matrix" := by
  unfold correct_population np_linalg_solve
  rw [if_pos h]

/-- Witness for C6: a concrete singular matrix (both rows equal). -/
theorem correct_population_singular_error_witness :
    (!![1, 1; 1, 1] : Matrix (Fin 2) (Fin 2) ℚ).det = 0 ∧
      correct_population (!![1/2; 1/2] : Matrix (Fin 2) (Fin 1) ℚ) !![1, 1; 1, 1] =
        .error "Singular matrix" :=
  ⟨by simp [Matrix.det_fin_two_of],
    correct_population_singular_error !![1/2; 1/2] !![1, 1; 1, 1]
      (by simp [Matrix.det_fin_two_of])⟩

/-! ## rotate_IQ (processing.py)

The data has shape (2, ...) with the leading axis indexing the I and Q
quadratures; the trailing shape is arbitrary and is modelled by an
arbitrary index type D.  The source builds the standard rotation matrix
from cos and sin of the angle and contracts it against the leading axis
with np.einsum, which is the pointwise sum below.  Angles require real
trigonometric functions, so this part of the embedding lives over ℝ. -/

/-- Rotation matrix rot_matrix of rotate_IQ. -/
noncomputable def rot_matrix (angle : ℝ) : Fin 2 → Fin 2 → ℝ :=
  ![![Real.cos angle, -Real.sin angle], ![Real.sin angle, Real.cos angle]]

/-- Source function rotate_IQ: einsum of the rotation matrix against the
leading quadrature axis of the data. -/
noncomputable def rotate_IQ {D : Type} (input_data : Fin 2 → D → ℝ) (angle : ℝ) :
    Fin 2 → D → ℝ :=
  fun i x => ∑ j, rot_matrix angle i j * input_data j x

/-- C8: rotating any IQ data by an angle and then by its negation returns
the data exactly: rotation is its own group-action inverse. -/
theorem rotate_IQ_inverse {D : Type} (input_data : Fin 2 → D → ℝ) (angle : ℝ) :
    rotate_IQ (rotate_IQ input_data angle) (-angle) = input_data := by
  funext i x
  simp only [rotate_IQ, Fin.sum_univ_two]
  fin_cases i
  · simp [rot_matrix, Real.cos_neg, Real.sin_neg]
    linear_combination input_data 0 x * Real.sin_sq_add_cos_sq angle
  · simp [rot_matrix, Real.cos_neg, Real.sin_neg]
    linear_combination input_data 1 x * Real.sin_sq_add_cos_sq angle

/-! ## find_most_distant_points (processing.py)

The source scans every ordered pair of points with two nested loops,
keeping the pair at maximal Euclidean distance; max_distance starts at 0
and is replaced only on a strict increase, so the output variables are
assigned if and only if some pair lies at strictly positive distance —
otherwise the trailing return raises UnboundLocalError, modelled as none.

The loop compares distances only with each other and with the initial 0;
squaring is strictly monotone on non-negative reals, so comparing squared
Euclidean distances (exact rational arithmetic) makes exactly the same
decisions in every iteration as comparing the norms themselves. -/

/-- Squared Euclidean distance of two points given as coordinate lists. -/
def sqDist (v w : List ℚ) : ℚ :=
  ((v.zip w).map (fun c => (c.1 - c.2) ^ 2)).sum

/-- Body of the double loop: replace the running maximum and the candidate
pair exactly on a strict increase of the distance. -/
def fmdpStep (st : ℚ × Option (List ℚ × List ℚ)) (i j : List ℚ) :
    ℚ × Option (List ℚ × List ℚ) :=
  if sqDist i j > st.1 then (sqDist i j, some (i, j)) else st

/-- Source function find_most_distant_points: two nested loops over the
points, starting from max_distance = 0 and unassigned output variables. -/
def find_most_distant_points (input_data : List (List ℚ)) :
    Option (List ℚ × List ℚ) :=
  (input_data.foldl
    (fun st i => input_data.foldl (fun st2 j => fmdpStep st2 i j) st)
    (0, none)).2

theorem sqDist_nonneg (v w : List ℚ) : 0 ≤ sqDist v w := by
  apply List.sum_nonneg
  intro x hx
  obtain ⟨c, _, rfl⟩ := List.mem_map.mp hx
  positivity

theorem sqDist_self (v : List ℚ) : sqDist v v = 0 := by
  unfold sqDist
  induction v with
  | nil => simp
  | cons a t ih => simpa using ih

theorem fmdp_foldl_pairs_aux (l l1 : List (List ℚ))
    (st0 : ℚ × Option (List ℚ × List ℚ)) :
    l1.foldl (fun st i => l.foldl (fun st2 j => fmdpStep st2 i j) st) st0 =
      (l1.flatMap (fun i => l.map (fun j => (i, j)))).foldl
        (fun st c => fmdpStep st c.1 c.2) st0 := by
  induction l1 generalizing st0 with
  | nil => rfl
  | cons a t ih =>
      simp only [List.foldl_cons, List.flatMap_cons, List.foldl_append]
      rw [List.foldl_map]
      exact ih _

theorem fmdp_foldl_pairs (l : List (List ℚ)) (st0 : ℚ × Option (List ℚ × List ℚ)) :
    l.foldl (fun st i => l.foldl (fun st2 j => fmdpStep st2 i j) st) st0 =
      (l.flatMap (fun i => l.map (fun j => (i, j)))).foldl
        (fun st c => fmdpStep st c.1 c.2) st0 :=
  fmdp_foldl_pairs_aux l l st0

theorem fmdp_flat_fold (ps : List (List ℚ × List ℚ)) :
    ∀ st : ℚ × Option (List ℚ × List ℚ), 0 ≤ st.1 →
      (st.2.isSome = true ↔ 0 < st.1) →
      ((ps.foldl (fun st c => fmdpStep st c.1 c.2) st).2.isSome = true ↔
        (0 < st.1 ∨ ∃ c ∈ ps, 0 < sqDist c.1 c.2)) := by
  induction ps with
  | nil => intro st _ hiff; simpa using hiff
  | cons c t ih =>
      intro st hnn hiff
      by_cases hgt : sqDist c.1 c.2 > st.1
      · have hstep : fmdpStep st c.1 c.2 = (sqDist c.1 c.2, some (c.1, c.2)) := by
          unfold fmdpStep; rw [if_pos hgt]
        have hpos : 0 < sqDist c.1 c.2 := lt_of_le_of_lt hnn hgt
        have := ih (sqDist c.1 c.2, some (c.1, c.2)) (le_of_lt hpos)
          (by simpa using hpos)
        simp only [List.foldl_cons, hstep]
        rw [this]
        constructor
        · intro _; exact Or.inr ⟨c, List.mem_cons_self c t, hpos⟩
        · intro _; exact Or.inl hpos
      · have hstep : fmdpStep st c.1 c.2 = st := by
          unfold fmdpStep; rw [if_neg hgt]
        have hle : sqDist c.1 c.2 ≤ st.1 := not_lt.mp hgt
        have := ih st hnn hiff
        simp only [List.foldl_cons, hstep]
        rw [this]
        constructor
        · rintro (h | ⟨d, hd, hdpos⟩)
          · exact Or.inl h
          · exact Or.inr ⟨d, List.mem_cons_of_mem c hd, hdpos⟩
        · rintro (h | ⟨d, hd, hdpos⟩)
          · exact Or.inl h
          · rcases List.mem_cons.mp hd with rfl | hdt
            · exact Or.inl (lt_of_lt_of_le hdpos hle)
            · exact Or.inr ⟨d, hdt, hdpos⟩

/-- C10: find_most_distant_points returns a pair exactly when some pair of
input points lies at strictly positive Euclidean distance; in particular
on a single point (all points identical) nothing is ever assigned and the
function fails instead of returning. -/
theorem find_most_distant_points_spec (input_data : List (List ℚ)) (v : List ℚ) :
    ((find_most_distant_points input_data).isSome = true ↔
      ∃ p ∈ input_data, ∃ q ∈ input_data, 0 < sqDist p q) ∧
    find_most_distant_points [v] = none := by
  constructor
  · unfold find_most_distant_points
    rw [fmdp_foldl_pairs]
    rw [fmdp_flat_fold _ (0, none) le_rfl (by simp)]
    constructor
    · rintro (h | ⟨c, hc, hpos⟩)
      · exact absurd h (lt_irrefl 0)
      · obtain ⟨p, hp, hm⟩ := List.mem_flatMap.mp hc
        obtain ⟨q, hq, rfl⟩ := List.mem_map.mp hm
        exact ⟨p, hp, q, hq, hpos⟩
    · rintro ⟨p, hp, q, hq, hpos⟩
      exact Or.inr ⟨(p, q), List.mem_flatMap.mpr ⟨p, hp, List.mem_map.mpr ⟨q, hq, rfl⟩⟩, hpos⟩
  · unfold find_most_distant_points
    have : fmdpStep (0, none) v v = (0, none) := by
      unfold fmdpStep
      rw [if_neg (by rw [sqDist_self]; exact lt_irrefl 0)]
    simp [this]

/-! ## Array allocation behaviour of the processing functions

Claim C9 is about object identity: whether the processing functions ever
modify the array object the caller passed in.  We model the numpy side of
each function as the ordered list of array-allocating operations its body
performs, over a heap that is a list of allocated array objects addressed
by position.  Each operation in the source either copies an existing
array (np.array), wraps one in a view without copying (np.ma.MaskedArray
with the default copy = False, ndarray.reshape, ndarray.T), or computes a
fresh result array from its operands; none of them assigns into an
existing array (the source contains no in-place assignment), so running a
function only appends to the heap.  The refs an operation carries are the
positions it reads: given the heap length at entry (base), position base
is the first object the call allocates. -/

/-- Position of an array object in the allocation heap. -/
abbrev Ref := Nat

/-- Array-allocating operations the processing functions perform. -/
inductive NpOp where
  /-- np.array(x): allocate a fresh copy of x -/
  | npArrayCopy (src : Ref) : NpOp
  /-- np.ma.MaskedArray(x, mask): wrap x in a masked view, sharing its buffer -/
  | maskedView (src : Ref) : NpOp
  /-- comparison (x == level): fresh boolean array -/
  | eqLevel (src : Ref) (level : Nat) : NpOp
  /-- np.mean(x, axis): fresh reduced array -/
  | meanAxis (src : Ref) : NpOp
  /-- np.array applied to a python list of arrays: fresh stacked array -/
  | stackList (srcs : List Ref) : NpOp
  /-- np.einsum with the rotation matrix: fresh result array -/
  | einsumRot (src : Ref) : NpOp
  /-- ndarray.reshape: view of x, no copy -/
  | reshapeView (src : Ref) : NpOp
  /-- ndarray.T: transposed view of x, no copy -/
  | transposeView (src : Ref) : NpOp
  /-- np.linalg.solve(a, b): fresh solution array -/
  | linalgSolve (mat : Ref) (rhs : Ref) : NpOp
  /-- GaussianMixture.fit on x plus reading means_ and covariances_: fresh arrays -/
  | gmmFitOp (src : Ref) : NpOp
  /-- GaussianMixture.predict on x: fresh label array -/
  | gmmPredictOp (src : Ref) : NpOp
deriving DecidableEq

/-- Running a list of allocating operations on a heap: every operation
appends one freshly allocated object and touches nothing else. -/
def runNpOps (ops : List NpOp) (heap : List NpOp) : List NpOp :=
  ops.foldl (fun h op => h ++ [op]) heap

/-- Allocations of rotate_IQ: np.array(input_data), then the einsum. -/
def rotate_IQ_ops (base : Ref) (input_data : Ref) : List NpOp :=
  [.npArrayCopy input_data, .einsumRot base]

/-- Allocations of gmm_fit: np.array(input_data), the reshape(2,-1) view,
its transpose, then the fit. -/
def gmm_fit_ops (base : Ref) (input_data : Ref) : List NpOp :=
  [.npArrayCopy input_data, .reshapeView base, .transposeView (base + 1),
   .gmmFitOp (base + 2)]

/-- Allocations of gmm_predict: np.array on the data, the means and the
covariances, then the reshape view, its transpose, the prediction, and the
final reshape of the labels. -/
def gmm_predict_ops (base : Ref) (input_data means covariances : Ref) : List NpOp :=
  [.npArrayCopy input_data, .npArrayCopy means, .npArrayCopy covariances,
   .reshapeView base, .transposeView (base + 3), .gmmPredictOp (base + 4),
   .reshapeView (base + 5)]

/-- Allocations of normalize_population: the masked view of the input (no
np.array, no copy), then per level the comparison and the mean, then
np.array on the resulting python list. -/
def normalize_population_ops (base : Ref) (input_data : Ref) (n_levels : Nat) :
    List NpOp :=
  [.maskedView input_data] ++
    (List.range n_levels).flatMap
      (fun l => [.eqLevel base l, .meanAxis (base + 1 + 2 * l)]) ++
    [.stackList ((List.range n_levels).map (fun l => base + 2 + 2 * l))]

/-- Allocations of correct_population: np.array(input_data), the flattening
reshape view, the solve, and the reshape of the result. -/
def correct_population_ops (base : Ref) (input_data corr_matrix : Ref) : List NpOp :=
  [.npArrayCopy input_data, .reshapeView base,
   .linalgSolve corr_matrix (base + 1), .reshapeView (base + 2)]

/-- Test of the mechanism stated in C9: does the first operation of a
function body copy its input via np.array. -/
def firstOpIsNpArrayCopy (ops : List NpOp) : Bool :=
  match ops with
  | .npArrayCopy _ :: _ => true
  | _ => false

theorem runNpOps_eq_append (ops : List NpOp) (heap : List NpOp) :
    runNpOps ops heap = heap ++ ops := by
  induction ops generalizing heap with
  | nil => simp [runNpOps]
  | cons op rest ih =>
      unfold runNpOps at ih ⊢
      rw [List.foldl_cons, ih]
      simp

/-- Counterexample to C9 as stated: normalize_population does not first
convert its input via np.array; its first operation wraps the input in a
masked-array view that shares the buffer of the caller (here on input ref
0 with two levels). -/
theorem normalize_population_not_nparray_first :
    firstOpIsNpArrayCopy (normalize_population_ops 0 0 2) = false ∧
      (normalize_population_ops 0 0 2).head? = some (.maskedView 0) := by
  refine ⟨rfl, rfl⟩

/-- C9 as amended: none of the five processing functions ever writes to an
existing array object, so the data the caller passed in is left unchanged
(every prior heap cell survives with the same content); and rotate_IQ,
gmm_fit, gmm_predict and correct_population do start by copying their
input via np.array, while normalize_population starts with a non-copying
masked view and only reads it afterwards. -/
theorem processing_preserves_caller_arrays (heap : List NpOp)
    (base input_data means covariances corr_matrix : Ref) (n_levels : Nat) :
    ((runNpOps (rotate_IQ_ops base input_data) heap).take heap.length = heap ∧
      firstOpIsNpArrayCopy (rotate_IQ_ops base input_data) = true) ∧
    ((runNpOps (gmm_fit_ops base input_data) heap).take heap.length = heap ∧
      firstOpIsNpArrayCopy (gmm_fit_ops base input_data) = true) ∧
    ((runNpOps (gmm_predict_ops base input_data means covariances) heap).take
        heap.length = heap ∧
      firstOpIsNpArrayCopy (gmm_predict_ops base input_data means covariances) = true) ∧
    ((runNpOps (normalize_population_ops base input_data n_levels) heap).take
        heap.length = heap ∧
      (normalize_population_ops base input_data n_levels).head? =
        some (.maskedView input_data)) ∧
    ((runNpOps (correct_population_ops base input_data corr_matrix) heap).take
        heap.length = heap ∧
      firstOpIsNpArrayCopy (correct_population_ops base input_data corr_matrix) = true) := by
  refine ⟨⟨?_, rfl⟩, ⟨?_, rfl⟩, ⟨?_, rfl⟩, ⟨?_, rfl⟩, ⟨?_, rfl⟩⟩ <;>
    rw [runNpOps_eq_append, List.take_left]

end Qtrlb
